import Mathlib

/-!
Verification of the figure-resolution logic of the ffonons site.

The repository's only real logic is a pair of SvelteKit `load` functions and a
catalog page:

* the broad resolver (`src/unnamed/part_000`): globs all figure modules, keeps
  the keys whose path contains the substring `mp-<slug>`, awaits all their
  deferred loaders with `Promise.all`, and returns either `{ status: 404 }`
  or `{ figs }`;
* the narrow resolver (`src/site/src/routes/mp-[slug]/+page.ts`): an exact
  record lookup of one fixed key, returning `{ DosFig }`;
* the catalog page (`src/site/src/routes/+page.svelte`): for each glob key
  renders a link whose text is
  `mp-` ++ `key.split('/').at(-1)?.split('-').at(1)`.

JS strings are modelled as `List Char`, JS records as association lists with
(unique) path keys, deferred loaders as `Except` values, and `Promise.all` by
its value semantics.
-/

/-- A JS string (used for file paths, slugs and identifiers), modelled as its
character sequence. -/
abbrev JPath := List Char

/-- Models JS `String.prototype.includes`: `jsIncludes s sub` is `true` iff
`sub` occurs as a contiguous substring of `s`. -/
def jsIncludes (s sub : JPath) : Bool := decide (sub <:+: s)

/-- Models JS `String.prototype.split` with a one-character separator:
`"a-b".split('-') = ["a","b"]`, `"".split('-') = [""]`,
`"-b".split('-') = ["","b"]`, `"a-".split('-') = ["a",""]`. -/
def jsSplitList (sep : Char) : List Char → List (List Char)
  | [] => [[]]
  | c :: cs =>
    if c = sep then [] :: jsSplitList sep cs
    else
      match jsSplitList sep cs with
      | [] => [[c]]
      | h :: t => (c :: h) :: t

/-- Models JS `Array.prototype.at(-1)` on the (always nonempty) output of
`split`; the `[]` default is unreachable. -/
def jsAtLast : List (List Char) → List Char
  | [] => []
  | [x] => x
  | _ :: x :: xs => jsAtLast (x :: xs)

/-- `split` never returns the empty array. -/
lemma jsSplitList_ne_nil (sep : Char) (l : List Char) : jsSplitList sep l ≠ [] := by
  cases l with
  | nil => simp [jsSplitList]
  | cons c cs =>
    simp only [jsSplitList]
    by_cases hc : c = sep
    · simp [hc]
    · rw [if_neg hc]
      cases jsSplitList sep cs with
      | nil => simp
      | cons h t => simp

lemma jsSplitList_cons_sep (sep : Char) (cs : List Char) :
    jsSplitList sep (sep :: cs) = [] :: jsSplitList sep cs := by
  simp [jsSplitList]

lemma jsSplitList_cons_ne (sep c : Char) (cs : List Char) (hc : c ≠ sep) :
    jsSplitList sep (c :: cs) =
      match jsSplitList sep cs with
      | [] => [[c]]
      | h :: t => (c :: h) :: t := by
  simp [jsSplitList, hc]

/-- The first component produced by `split` is a prefix of the input. -/
lemma jsSplitList_head_append (sep : Char) :
    ∀ (l : List Char) (a : List Char) (t : List (List Char)),
      jsSplitList sep l = a :: t → ∃ rest, l = a ++ rest := by
  intro l
  induction l with
  | nil =>
    intro a t h
    simp [jsSplitList] at h
    exact ⟨[], by simp [h.1]⟩
  | cons c cs ih =>
    intro a t h
    by_cases hc : c = sep
    · subst hc
      rw [jsSplitList_cons_sep] at h
      obtain ⟨rfl, -⟩ := List.cons.inj h
      exact ⟨c :: cs, rfl⟩
    · rw [jsSplitList_cons_ne sep c cs hc] at h
      cases hcs : jsSplitList sep cs with
      | nil => exact absurd hcs (jsSplitList_ne_nil sep cs)
      | cons h0 t0 =>
        rw [hcs] at h
        obtain ⟨rfl, -⟩ := List.cons.inj h
        obtain ⟨rest, hrest⟩ := ih h0 t0 hcs
        exact ⟨rest, by rw [hrest]; rfl⟩

/-- If `split` returns a single component, that component is the whole input. -/
lemma jsSplitList_eq_singleton (sep : Char) :
    ∀ (l : List Char) (a : List Char), jsSplitList sep l = [a] → l = a := by
  intro l
  induction l with
  | nil =>
    intro a h
    simp [jsSplitList] at h
    exact h.symm
  | cons c cs ih =>
    intro a h
    by_cases hc : c = sep
    · subst hc
      rw [jsSplitList_cons_sep] at h
      obtain ⟨-, htl⟩ := List.cons.inj h
      exact absurd htl (jsSplitList_ne_nil c cs)
    · rw [jsSplitList_cons_ne sep c cs hc] at h
      cases hcs : jsSplitList sep cs with
      | nil => exact absurd hcs (jsSplitList_ne_nil sep cs)
      | cons h0 t0 =>
        rw [hcs] at h
        obtain ⟨rfl, htl⟩ := List.cons.inj h
        subst htl
        rw [ih h0 hcs]

/-- The last component produced by `split` is a suffix of the input. -/
lemma jsAtLast_jsSplitList_suffix (sep : Char) :
    ∀ l : List Char, ∃ s, s ++ jsAtLast (jsSplitList sep l) = l := by
  intro l
  induction l with
  | nil => exact ⟨[], rfl⟩
  | cons c cs ih =>
    by_cases hc : c = sep
    · subst hc
      rw [jsSplitList_cons_sep]
      cases hcs : jsSplitList c cs with
      | nil => exact absurd hcs (jsSplitList_ne_nil c cs)
      | cons h0 t0 =>
        rw [hcs] at ih
        obtain ⟨s, hs⟩ := ih
        exact ⟨c :: s, by rw [show jsAtLast ([] :: h0 :: t0) = jsAtLast (h0 :: t0) from rfl,
          List.cons_append, hs]⟩
    · rw [jsSplitList_cons_ne sep c cs hc]
      cases hcs : jsSplitList sep cs with
      | nil => exact absurd hcs (jsSplitList_ne_nil sep cs)
      | cons h0 t0 =>
        cases t0 with
        | nil =>
          have := jsSplitList_eq_singleton sep cs h0 hcs
          exact ⟨[], by rw [show jsAtLast [c :: h0] = c :: h0 from rfl, List.nil_append, this]⟩
        | cons t1 ts =>
          rw [hcs] at ih
          obtain ⟨s, hs⟩ := ih
          refine ⟨c :: s, ?_⟩
          rw [show jsAtLast ((c :: h0) :: t1 :: ts) = jsAtLast (t1 :: ts) from rfl]
          rw [show jsAtLast (h0 :: t1 :: ts) = jsAtLast (t1 :: ts) from rfl] at hs
          rw [List.cons_append, hs]

/-- Models JS `Array.prototype.at(1)` followed by template-literal
interpolation: `at(1)` on an array with fewer than two elements is
`undefined`, and interpolating `undefined` into a template literal produces
the string `"undefined"`. -/
def jsAt1Interp : List (List Char) → List Char
  | [] => "undefined".toList
  | [_] => "undefined".toList
  | _ :: x :: _ => x

/-- Catalog page, `src/site/src/routes/+page.svelte` line 21 (and the same
line of `src/unnamed/part_001`): `key.split('/').at(-1)` — the last
path segment of a glob key. -/
def lastSeg (key : JPath) : JPath := jsAtLast (jsSplitList '/' key)

/-- Catalog page: the token `key.split('/').at(-1)?.split('-').at(1)`
interpolated into the template literal (the `?.` never short-circuits because
`split` output is nonempty, so `at(-1)` is never `undefined`). -/
def mpIdTok (key : JPath) : JPath := jsAt1Interp (jsSplitList '-' (lastSeg key))

/-- Catalog page, the `mp_id` constant of the each-block:
`` `mp-${key.split(`/`).at(-1)?.split(`-`).at(1)}` ``. -/
def mp_id (key : JPath) : JPath := "mp-".toList ++ mpIdTok key

/-- Catalog page: the each-block iterates `Object.keys(figs)` in enumeration
order and renders one `mp_id` link per key (there is no deduplication in the
source). -/
def derivedIds (keys : List JPath) : List JPath := keys.map mp_id

/-- Broad resolver, `src/unnamed/part_000` lines 9-12: the glob record
entries whose path passes ``path.includes(`mp-${params.slug}`)``.  The source
filters `Object.keys(all)` and then indexes the record at each surviving key
(`keys.map((key) => all[key]())`); since record keys are unique, this is
exactly the filter of the (path, loader) pairs. -/
def matchedEntries {β : Type} (table : List (JPath × β)) (slug : JPath) :
    List (JPath × β) :=
  table.filter (fun kv => jsIncludes kv.1 ("mp-".toList ++ slug))

/-- Broad resolver: the `keys` constant of `src/unnamed/part_000` lines 9-11,
i.e. the matched paths themselves. -/
def broadKeys {β : Type} (table : List (JPath × β)) (slug : JPath) : List JPath :=
  (matchedEntries table slug).map Prod.fst

/-- Value semantics of JS `Promise.all` over the deferred loaders: it
fulfills with the array of results, in input order, iff every input
fulfills, and rejects if any input rejects.  (Which rejection reason
surfaces depends on timing; this model takes the first in index order —
no claim depends on the choice, only on failure vs success.) -/
def promiseAll {ε α : Type} : List (Except ε α) → Except ε (List α)
  | [] => Except.ok []
  | Except.error e :: _ => Except.error e
  | Except.ok a :: rest =>
    match promiseAll rest with
    | Except.error e => Except.error e
    | Except.ok as => Except.ok (a :: as)

/-- Models the JS truthiness test `!figs` on `src/unnamed/part_000` line 14:
`figs` there is the array resolved from `Promise.all`, and a JS array is an
object, hence truthy, so its negation is `false` for every array — including
the empty one.  This is the exact embedding of that source line, not a
simplification. -/
def jsArrayFalsy {α : Type} (_figs : List α) : Bool := false

/-- The two possible normal return values of the broad resolver's `load`:
`{ status: 404 }` or `{ figs }`. -/
inductive BroadResult (α : Type) : Type where
  | status404 : BroadResult α
  | figs : List α → BroadResult α
deriving DecidableEq

/-- Broad resolver, the `load` of `src/unnamed/part_000`: filter the glob
record by substring containment, `await Promise.all` the matched loaders
(a rejection propagates out of `load` as the `Except.error` case),
then `if (!figs) return { status: 404 }; return { figs }`. -/
def broadLoad {ε α : Type} (table : List (JPath × Except ε α)) (slug : JPath) :
    Except ε (BroadResult α) :=
  match promiseAll ((matchedEntries table slug).map Prod.snd) with
  | Except.error e => Except.error e
  | Except.ok figs =>
    if jsArrayFalsy figs then Except.ok BroadResult.status404
    else Except.ok (BroadResult.figs figs)

/-- Models JS record indexing `obj[key]`: the value stored at `key`, or
`undefined` (`none`) when the key is absent.  Record keys are unique, so
first-match lookup is the lookup. -/
def jsRecordGet {α : Type} : List (JPath × α) → JPath → Option α
  | [], _ => none
  | (k, v) :: rest, key => if k = key then some v else jsRecordGet rest key

/-- Narrow resolver, `src/site/src/routes/mp-[slug]/+page.ts` lines 10-13:
the single record key
`` `/src/figs/mace-mp0-phonondb/mp-${params.slug}-dos-pbe-vs-mace-y7uhwpje.svelte` ``. -/
def dosFigKey (slug : JPath) : JPath :=
  "/src/figs/mace-mp0-phonondb/mp-".toList ++ slug ++
    "-dos-pbe-vs-mace-y7uhwpje.svelte".toList

/-- The narrow resolver's return value `{ DosFig }`; the glob is eager, so
`DosFig` is the component itself or `undefined` (`none`) — `await` on a
non-promise is the identity. -/
structure NarrowResult (α : Type) : Type where
  DosFig : Option α
deriving DecidableEq

/-- Narrow resolver, the `load` of `src/site/src/routes/mp-[slug]/+page.ts`:
an exact key lookup in the eager glob record, returned as `{ DosFig }`
whether or not the key was present. -/
def narrowLoad {α : Type} (table : List (JPath × α)) (slug : JPath) :
    NarrowResult α :=
  { DosFig := jsRecordGet table (dosFigKey slug) }

/-- If any input of the fan-out rejects, `Promise.all` rejects. -/
lemma promiseAll_error_of_mem {ε α : Type} {xs : List (Except ε α)} {e : ε}
    (hmem : Except.error e ∈ xs) : ∃ e', promiseAll xs = Except.error e' := by
  induction xs with
  | nil => cases hmem
  | cons x rest ih =>
    cases x with
    | error e0 => exact ⟨e0, rfl⟩
    | ok a =>
      have hrest : Except.error e ∈ rest := by
        cases hmem with
        | tail _ h => exact h
      obtain ⟨e', he'⟩ := ih hrest
      refine ⟨e', ?_⟩
      show (match promiseAll rest with
        | Except.error e => Except.error e
        | Except.ok as => Except.ok (a :: as)) = Except.error e'
      rw [he']

/-- If the fan-in fulfills, every input fulfilled and the result array holds
the inputs' values in input order. -/
lemma promiseAll_eq_ok {ε α : Type} :
    ∀ {xs : List (Except ε α)} {l : List α},
      promiseAll xs = Except.ok l → xs = l.map Except.ok := by
  intro xs
  induction xs with
  | nil =>
    intro l h
    have : ([] : List α) = l := Except.ok.inj h
    rw [← this]
    rfl
  | cons x rest ih =>
    intro l h
    cases x with
    | error e => exact absurd h (by simp [promiseAll])
    | ok a =>
      have h' : (match promiseAll rest with
          | Except.error e => Except.error e
          | Except.ok as => Except.ok (a :: as)) = Except.ok l := h
      cases hr : promiseAll rest with
      | error e => rw [hr] at h'; exact Except.noConfusion h'
      | ok as =>
        rw [hr] at h'
        have hl : a :: as = l := Except.ok.inj h'
        rw [← hl, List.map_cons, ih hr]

/-- A successful record lookup returns a value stored at that key. -/
lemma jsRecordGet_some {α : Type} :
    ∀ {table : List (JPath × α)} {k : JPath} {v : α},
      jsRecordGet table k = some v → (k, v) ∈ table := by
  intro table
  induction table with
  | nil => intro k v h; exact Option.noConfusion h
  | cons kv rest ih =>
    intro k v h
    obtain ⟨k', v'⟩ := kv
    by_cases hk : k' = k
    · subst hk
      rw [show jsRecordGet ((k', v') :: rest) k' = some v' by simp [jsRecordGet]] at h
      rw [← Option.some.inj h]
      exact List.mem_cons_self _ _
    · rw [show jsRecordGet ((k', v') :: rest) k = jsRecordGet rest k by
        simp [jsRecordGet, hk]] at h
      exact List.mem_cons_of_mem _ (ih h)

/-- A key present in the record is found by the lookup. -/
lemma jsRecordGet_of_mem_keys {α : Type} :
    ∀ {table : List (JPath × α)} {k : JPath},
      k ∈ table.map Prod.fst → ∃ v, jsRecordGet table k = some v := by
  intro table
  induction table with
  | nil => intro k h; cases h
  | cons kv rest ih =>
    intro k h
    obtain ⟨k', v'⟩ := kv
    by_cases hk : k' = k
    · exact ⟨v', by simp [jsRecordGet, hk]⟩
    · have : k ∈ rest.map Prod.fst := by
        rw [List.map_cons] at h
        cases h with
        | head => exact absurd rfl hk
        | tail _ h2 => exact h2
      obtain ⟨v, hv⟩ := ih this
      exact ⟨v, by simp [jsRecordGet, hk, hv]⟩

/-- A key absent from the record looks up to `undefined`. -/
lemma jsRecordGet_of_not_mem_keys {α : Type} :
    ∀ {table : List (JPath × α)} {k : JPath},
      k ∉ table.map Prod.fst → jsRecordGet table k = none := by
  intro table
  induction table with
  | nil => intro k _; rfl
  | cons kv rest ih =>
    intro k h
    obtain ⟨k', v'⟩ := kv
    by_cases hk : k' = k
    · exact absurd (by rw [List.map_cons, hk]; exact List.mem_cons_self _ _) h
    · have : k ∉ rest.map Prod.fst := fun h2 =>
        h (by rw [List.map_cons]; exact List.mem_cons_of_mem _ h2)
      simp [jsRecordGet, hk, ih this]

/-- Splitting a string of the form `mp-<r>` on the dash peels off the `mp`
token and continues on `r`. -/
lemma jsSplitList_mp (r : List Char) :
    jsSplitList '-' ('m' :: 'p' :: '-' :: r) = ['m', 'p'] :: jsSplitList '-' r := by
  rw [jsSplitList_cons_ne '-' 'm' _ (by decide)]
  rw [jsSplitList_cons_ne '-' 'p' _ (by decide)]
  rw [jsSplitList_cons_sep]

/-- For a glob key whose last path segment has the form `mp-<r>`, the catalog
token (`split('-').at(1)`) is the dash-free head of `r`; in particular `r`
extends it. -/
lemma mpIdTok_append (key r : JPath) (h : lastSeg key = "mp-".toList ++ r) :
    ∃ rest, r = mpIdTok key ++ rest := by
  have h' : lastSeg key = 'm' :: 'p' :: '-' :: r := h
  cases hs : jsSplitList '-' r with
  | nil => exact absurd hs (jsSplitList_ne_nil '-' r)
  | cons a t =>
    have htok : mpIdTok key = a := by
      unfold mpIdTok
      rw [h', jsSplitList_mp, hs]
      rfl
    obtain ⟨rest, hrest⟩ := jsSplitList_head_append '-' r a t hs
    exact ⟨rest, by rw [htok]; exact hrest⟩

/-- Claim C1 (code-bug evidence): for a requested identifier with no matching
artifact the broad resolver returns the normal result `{ figs: [] }` — an
empty collection — and not the 404 status result.  The guard
`if (!figs) return { status: 404 }` on line 14 of `src/unnamed/part_000`
can never fire, because `figs` is the array resolved from `Promise.all` and a
JS array is always truthy. -/
theorem broadLoad_no_match_yields_empty_figs :
    broadLoad [("/src/figs/mp-12-bs-dos-a.svelte".toList,
        (Except.ok 0 : Except Unit Nat))] "999".toList
      = Except.ok (BroadResult.figs []) ∧
    (Except.ok (BroadResult.figs ([] : List Nat)) : Except Unit (BroadResult Nat)) ≠
      Except.ok BroadResult.status404 :=
  ⟨rfl, fun h => BroadResult.noConfusion (Except.ok.inj h)⟩

/-- Claim C2 (counterexample): on the artifact paths `mp-2691-bs-dos-a`,
`mp-2691-bs-dos-b`, `mp-55-bs-dos-a` the catalog's derived identifier list is
not `[mp-2691, mp-55]` and is not duplicate-free — the each-block renders one
`mp_id` per key with no deduplication. -/
theorem catalog_dedup_refuted :
    derivedIds ["mp-2691-bs-dos-a".toList, "mp-2691-bs-dos-b".toList,
        "mp-55-bs-dos-a".toList]
      ≠ ["mp-2691".toList, "mp-55".toList] ∧
    ¬ (derivedIds ["mp-2691-bs-dos-a".toList, "mp-2691-bs-dos-b".toList,
        "mp-55-bs-dos-a".toList]).Nodup :=
  ⟨by decide, by decide⟩

/-- Claim C2 (amended): the catalog derives one identifier per artifact path,
in enumeration order and without deduplication; on the example paths the
derived list is exactly `[mp-2691, mp-2691, mp-55]`. -/
theorem catalog_ids_keep_duplicates :
    derivedIds ["mp-2691-bs-dos-a".toList, "mp-2691-bs-dos-b".toList,
        "mp-55-bs-dos-a".toList]
      = ["mp-2691".toList, "mp-2691".toList, "mp-55".toList] ∧
    ∀ keys : List JPath, (derivedIds keys).length = keys.length := by
  refine ⟨by decide, fun keys => ?_⟩
  unfold derivedIds
  exact List.length_map keys mp_id

/-- Claim C3: the broad resolver selects an artifact path if and only if the
path is in the artifact table and contains the literal substring
`mp-<identifier>` — plain substring containment, with no delimiter-boundary
check. -/
theorem broadKeys_mem_iff {β : Type} (table : List (JPath × β)) (slug p : JPath) :
    p ∈ broadKeys table slug ↔
      (∃ v, (p, v) ∈ table) ∧ ("mp-".toList ++ slug) <:+: p := by
  unfold broadKeys matchedEntries
  constructor
  · intro hp
    obtain ⟨kv, hkv, hfst⟩ := List.mem_map.mp hp
    obtain ⟨hmem, hpred⟩ := List.mem_filter.mp hkv
    obtain ⟨k, v⟩ := kv
    cases hfst
    exact ⟨⟨v, hmem⟩, of_decide_eq_true hpred⟩
  · rintro ⟨⟨v, hv⟩, hinf⟩
    exact List.mem_map.mpr ⟨(p, v), List.mem_filter.mpr ⟨hv, decide_eq_true hinf⟩, rfl⟩

/-- Claim C7: the identifiers `1` and `12` are distinct, `1` begins `12`, and
the artifact path intended for `12` is matched by the broad resolver for both
requested identifiers — the known substring-containment ambiguity. -/
theorem broad_match_ambiguity :
    "1".toList ≠ "12".toList ∧ (∃ t, "1".toList ++ t = "12".toList) ∧
    "/src/figs/mp-12-bs-dos-a.svelte".toList ∈
      broadKeys [("/src/figs/mp-12-bs-dos-a.svelte".toList,
        (Except.ok 0 : Except Unit Nat))] "12".toList ∧
    "/src/figs/mp-12-bs-dos-a.svelte".toList ∈
      broadKeys [("/src/figs/mp-12-bs-dos-a.svelte".toList,
        (Except.ok 0 : Except Unit Nat))] "1".toList :=
  ⟨by decide, ⟨['2'], by decide⟩, by decide, by decide⟩

/-- Claim C5: if any one of the matched artifacts' deferred loads fails, the
broad resolver's whole `load` fails — it never returns a normal result, so in
particular never a partial collection of the loads that succeeded. -/
theorem broadLoad_fail_fast {ε α : Type} (table : List (JPath × Except ε α))
    (slug : JPath) (e : ε) (kv : JPath × Except ε α)
    (hkv : kv ∈ matchedEntries table slug) (he : kv.2 = Except.error e) :
    (∃ e', broadLoad table slug = Except.error e') ∧
    ∀ r, broadLoad table slug ≠ Except.ok r := by
  have hmem : Except.error e ∈ (matchedEntries table slug).map Prod.snd :=
    List.mem_map.mpr ⟨kv, hkv, he⟩
  obtain ⟨e', he'⟩ := promiseAll_error_of_mem hmem
  constructor
  · exact ⟨e', by unfold broadLoad; rw [he']⟩
  · intro r h
    unfold broadLoad at h
    rw [he'] at h
    exact Except.noConfusion h

/-- Witness for claim C5: a table whose single matching loader rejects makes
the whole `load` reject. -/
theorem broadLoad_fail_fast_witness :
    (∃ e', broadLoad [("/src/figs/mp-7-bs-dos-x.svelte".toList,
        (Except.error () : Except Unit Nat))] "7".toList = Except.error e') ∧
    ∀ r, broadLoad [("/src/figs/mp-7-bs-dos-x.svelte".toList,
        (Except.error () : Except Unit Nat))] "7".toList ≠ Except.ok r :=
  broadLoad_fail_fast _ ("7".toList) ()
    ("/src/figs/mp-7-bs-dos-x.svelte".toList, Except.error ())
    (List.Mem.head _) rfl

/-- When the broad resolver's `load` succeeds with `{ figs }`, the collection
holds exactly the loaded values of the matching table entries, in table
order. -/
lemma broadLoad_ok_shape {ε α : Type}
    (table : List (JPath × Except ε α)) (slug : JPath) (l : List α)
    (h : broadLoad table slug = Except.ok (BroadResult.figs l)) :
    (matchedEntries table slug).map Prod.snd = l.map Except.ok ∧
    l.length = (matchedEntries table slug).length := by
  unfold broadLoad at h
  cases hr : promiseAll ((matchedEntries table slug).map Prod.snd) with
  | error e => rw [hr] at h; exact Except.noConfusion h
  | ok vals =>
    rw [hr] at h
    have h2 : BroadResult.figs vals = BroadResult.figs l := Except.ok.inj h
    have hvl : vals = l := by
      cases h2
      rfl
    subst hvl
    have hmap := promiseAll_eq_ok hr
    refine ⟨hmap, ?_⟩
    have := congrArg List.length hmap
    rw [List.length_map, List.length_map] at this
    exact this.symm

/-- Claim C9: when the broad resolver's `load` succeeds with `{ figs }`, the
collection is the loaded content of the matching keys in the same relative
order as their paths appear in the enumeration of the artifact table — the
`Promise.all` fan-out/fan-in preserves index order — with one element per
matching key. -/
theorem broadLoad_preserves_enumeration_order {ε α : Type}
    (table : List (JPath × Except ε α)) (slug : JPath) (l : List α)
    (h : broadLoad table slug = Except.ok (BroadResult.figs l)) :
    (matchedEntries table slug).map Prod.snd = l.map Except.ok ∧
    l.length = (matchedEntries table slug).length :=
  broadLoad_ok_shape table slug l h

/-- Witness for claim C9: two matching entries load to `[10, 20]`, in table
order. -/
theorem broadLoad_preserves_enumeration_order_witness :
    (matchedEntries [("/src/figs/mp-3-bs-dos-a.svelte".toList,
        (Except.ok 10 : Except Unit Nat)),
      ("/src/figs/mp-3-bs-dos-b.svelte".toList, Except.ok 20)]
        "3".toList).map Prod.snd = ([10, 20] : List Nat).map Except.ok ∧
    ([10, 20] : List Nat).length =
      (matchedEntries [("/src/figs/mp-3-bs-dos-a.svelte".toList,
        (Except.ok 10 : Except Unit Nat)),
      ("/src/figs/mp-3-bs-dos-b.svelte".toList, Except.ok 20)]
        "3".toList).length :=
  broadLoad_preserves_enumeration_order _ _ [10, 20] rfl

/-- Claim C4: an identifier the catalog derives from a glob key (whose last
path segment starts with `mp-`, as the catalog glob `mp-*-bs-dos-*.svelte`
guarantees) always resolves through the broad resolver, over the same
artifact table, to at least one artifact: the key list is nonempty, and any
successful `{ figs }` result is a nonempty collection.  The displayed link
`/mp-<tok>` hands `<tok>` to the resolver as `params.slug`. -/
theorem catalog_link_resolves {ε α : Type} (table : List (JPath × Except ε α))
    (key : JPath) (r : JPath) (hk : key ∈ table.map Prod.fst)
    (hr : lastSeg key = "mp-".toList ++ r) :
    broadKeys table (mpIdTok key) ≠ [] ∧
    ∀ l, broadLoad table (mpIdTok key) = Except.ok (BroadResult.figs l) →
      l ≠ [] := by
  have hinf : ("mp-".toList ++ mpIdTok key) <:+: key := by
    obtain ⟨rest, hrest⟩ := mpIdTok_append key r hr
    obtain ⟨s, hs⟩ := jsAtLast_jsSplitList_suffix '/' key
    have hs' : s ++ lastSeg key = key := hs
    refine ⟨s, rest, ?_⟩
    have hlast : lastSeg key = ("mp-".toList ++ mpIdTok key) ++ rest := by
      rw [hr, hrest, List.append_assoc]
    rw [List.append_assoc, ← hlast, hs']
  have hpred : jsIncludes key ("mp-".toList ++ mpIdTok key) = true :=
    decide_eq_true hinf
  obtain ⟨kv, hkv, hfst⟩ := List.mem_map.mp hk
  have hmemM : kv ∈ matchedEntries table (mpIdTok key) := by
    unfold matchedEntries
    refine List.mem_filter.mpr ⟨hkv, ?_⟩
    rw [hfst]
    exact hpred
  constructor
  · intro hempty
    unfold broadKeys at hempty
    rw [List.map_eq_nil_iff.mp hempty] at hmemM
    cases hmemM
  · intro l hl hleq
    obtain ⟨-, hlen⟩ := broadLoad_ok_shape table (mpIdTok key) l hl
    have h0 : (matchedEntries table (mpIdTok key)).length = 0 := by
      rw [← hlen, hleq]
      rfl
    rw [List.length_eq_zero.mp h0] at hmemM
    cases hmemM

/-- Witness for claim C4: the identifier derived from
`/src/figs/mp-2691-bs-dos-a.svelte` resolves over the same table to a
nonempty result. -/
theorem catalog_link_resolves_witness :
    broadKeys [("/src/figs/mp-2691-bs-dos-a.svelte".toList,
        (Except.ok 0 : Except Unit Nat))]
      (mpIdTok "/src/figs/mp-2691-bs-dos-a.svelte".toList) ≠ [] ∧
    ∀ l, broadLoad [("/src/figs/mp-2691-bs-dos-a.svelte".toList,
        (Except.ok 0 : Except Unit Nat))]
      (mpIdTok "/src/figs/mp-2691-bs-dos-a.svelte".toList)
        = Except.ok (BroadResult.figs l) → l ≠ [] :=
  catalog_link_resolves _ "/src/figs/mp-2691-bs-dos-a.svelte".toList
    "2691-bs-dos-a.svelte".toList (by decide) (by decide)

/-- Claim C6: the narrow resolver performs an exact key lookup of the single
path `/src/figs/mace-mp0-phonondb/mp-<slug>-dos-pbe-vs-mace-y7uhwpje.svelte`
(see `dosFigKey`): when that key is present it returns exactly the one
artifact stored there, when it is absent it returns the defined not-found
value `{ DosFig: undefined }`, and it can never return more than one
artifact. -/
theorem narrowLoad_at_most_one {α : Type} (table : List (JPath × α))
    (slug : JPath) :
    (((narrowLoad table slug).DosFig = none ∧
        dosFigKey slug ∉ table.map Prod.fst) ∨
      ∃ v, (narrowLoad table slug).DosFig = some v ∧
        (dosFigKey slug, v) ∈ table) ∧
    (dosFigKey slug ∈ table.map Prod.fst →
      ∃ v, (narrowLoad table slug).DosFig = some v) ∧
    ∀ v w, (narrowLoad table slug).DosFig = some v →
      (narrowLoad table slug).DosFig = some w → v = w := by
  refine ⟨?_, ?_, ?_⟩
  · by_cases hmem : dosFigKey slug ∈ table.map Prod.fst
    · obtain ⟨v, hv⟩ := jsRecordGet_of_mem_keys hmem
      exact Or.inr ⟨v, hv, jsRecordGet_some hv⟩
    · exact Or.inl ⟨jsRecordGet_of_not_mem_keys hmem, hmem⟩
  · intro hmem
    exact jsRecordGet_of_mem_keys hmem
  · intro v w hv hw
    rw [hv] at hw
    exact Option.some.inj hw

/-- Witness for claim C6: with the `mp-661` DOS figure present, the lookup at
slug `661` returns exactly that single artifact. -/
theorem narrowLoad_at_most_one_witness :
    ∃ v, (narrowLoad
      [("/src/figs/mace-mp0-phonondb/mp-661-dos-pbe-vs-mace-y7uhwpje.svelte".toList,
        (7 : Nat))] "661".toList).DosFig = some v :=
  (narrowLoad_at_most_one
    [("/src/figs/mace-mp0-phonondb/mp-661-dos-pbe-vs-mace-y7uhwpje.svelte".toList,
      (7 : Nat))] "661".toList).2.1 (by decide)

/-- Claim C10: when the exact DOS-figure key of a requested identifier is
absent from the artifact table, the narrow resolver's `load` completes
normally and returns `{ DosFig: undefined }` — no error and no 404 status
signal (its return type has no such case), so the caller must handle an
undefined figure. -/
theorem narrowLoad_miss_returns_undefined {α : Type}
    (table : List (JPath × α)) (slug : JPath)
    (h : dosFigKey slug ∉ table.map Prod.fst) :
    narrowLoad table slug = { DosFig := none } := by
  unfold narrowLoad
  rw [jsRecordGet_of_not_mem_keys h]

/-- Witness for claim C10: slug `999` misses a table holding only the
`mp-661` DOS figure, and the load returns `{ DosFig: undefined }`. -/
theorem narrowLoad_miss_returns_undefined_witness :
    narrowLoad
      [("/src/figs/mace-mp0-phonondb/mp-661-dos-pbe-vs-mace-y7uhwpje.svelte".toList,
        (7 : Nat))] "999".toList = { DosFig := none } :=
  narrowLoad_miss_returns_undefined _ "999".toList (by decide)

/-- Claim C8: the catalog's identifier derivation is deterministic — two runs
on the same artifact key enumeration yield the same identifier list,
element for element and in the same order. -/
theorem derivedIds_deterministic (keys1 keys2 : List JPath)
    (h : keys1 = keys2) : derivedIds keys1 = derivedIds keys2 := by
  rw [h]

/-- Witness for claim C8: two runs on the example key enumeration agree. -/
theorem derivedIds_deterministic_witness :
    derivedIds ["/src/figs/mp-2691-bs-dos-a.svelte".toList,
        "/src/figs/mp-55-bs-dos-a.svelte".toList]
      = derivedIds ["/src/figs/mp-2691-bs-dos-a.svelte".toList,
        "/src/figs/mp-55-bs-dos-a.svelte".toList] :=
  derivedIds_deterministic _ _ rfl
